import Mathlib

/-!
Formal model of the pyqsp phase-angle toolkit: the qulacs-backed
`QSPCircuit` response evaluator (`pyqsp/qsp_models/qsp_circuit.py`), the
command-line dispatch of `pyqsp/main.py`, and the phase-angle solver
pipeline.  The solver, polynomial-approximation and Hamiltonian-expansion
modules are not part of the provided sources; where a definition is
modelled from the specification instead of from source code, its doc
comment says so explicitly.
-/

namespace PyQSP

/-- Single-qubit rotation gates as added by the qulacs calls
`add_RZ_gate` / `add_RX_gate`; the stored angle is the gate parameter
`angle`, realizing `exp(i * angle/2 * Z)` resp. `exp(i * angle/2 * X)`. -/
inductive Gate
  | rz (angle : ℝ)
  | rx (angle : ℝ)

/-- Gates appended by the loop of `build_qsp_sequence(theta)` over
`self.phis[1:]`: `RX(theta)` then `RZ(p)` for each remaining doubled
phase `p`. -/
def interleaveGates (theta : ℝ) : List ℝ → List Gate
  | [] => []
  | p :: ps => Gate.rx theta :: Gate.rz p :: interleaveGates theta ps

/-- Gate list appended by one `build_qsp_sequence(theta)` call:
`RZ(phis[0])`, then alternately `RX(theta)`, `RZ(phis[k])` for
`k = 1..d`, where `phis` is the doubled phase array stored by
`__init__`.  The empty case is unreachable from `build_qsp_sequence`,
which raises `IndexError` there. -/
def qspGateList (phis : List ℝ) (theta : ℝ) : List Gate :=
  match phis with
  | [] => []
  | p0 :: rest => Gate.rz p0 :: interleaveGates theta rest

/-- State of a `QSPCircuit` object: the doubled phase array stored by
`__init__` (`self.phis = np.array(phis).flatten() * 2`) and the gate list
of the underlying `qulacs.QuantumCircuit`, which `build_qsp_sequence`
extends in place. -/
structure QSPCircuit where
  phis : List ℝ
  gates : List Gate

/-- Model of `QSPCircuit.__init__(phis)`: stores the phases multiplied
by 2 and starts from an empty gate list. -/
def QSPCircuit.ofPhis (phis : List ℝ) : QSPCircuit :=
  { phis := phis.map (fun p => p * 2), gates := [] }

/-- Python exceptions the modelled methods can raise. -/
inductive PyErr
  | indexError
  | attributeError

/-- Model of one call to `QSPCircuit.build_qsp_sequence(theta)`: appends
the QSP gate sequence to the circuit object in place and returns the
Python value `None` (the method body has no `return` statement).  Raises
`IndexError` on an empty phase array (`self.phis[0]`). -/
def QSPCircuit.build_qsp_sequence (c : QSPCircuit) (theta : ℝ) :
    Except PyErr (QSPCircuit × Option Unit) :=
  match c.phis with
  | [] => Except.error PyErr.indexError
  | p0 :: rest =>
    Except.ok ({ c with gates := c.gates ++ qspGateList (p0 :: rest) theta }, none)

/-- Circuit state after a `build_qsp_sequence` call (unchanged if the
call raised). -/
def QSPCircuit.afterBuild (c : QSPCircuit) (theta : ℝ) : QSPCircuit :=
  match c.build_qsp_sequence theta with
  | Except.ok p => p.1
  | Except.error _ => c

/-- Model of `QSPCircuit.eval_px(thetas)`.  For each theta the source
binds `circ = self.build_qsp_sequence(theta * 2)`; since that method
returns `None`, the subsequent `circ.update_quantum_state(state)` raises
`AttributeError` whenever `thetas` is nonempty. -/
def QSPCircuit.eval_px (c : QSPCircuit) (thetas : List ℝ) : Except PyErr (List ℂ) :=
  match thetas with
  | [] => Except.ok []
  | theta :: _ =>
    match c.build_qsp_sequence (theta * 2) with
    | Except.error e => Except.error e
    | Except.ok (_, _circ) => Except.error PyErr.attributeError

/-- Model of `QSPCircuit.eval_qx(thetas)`; it fails exactly like
`eval_px`, on the same `circ = self.build_qsp_sequence(theta * 2)`
binding. -/
def QSPCircuit.eval_qx (c : QSPCircuit) (thetas : List ℝ) : Except PyErr (List ℂ) :=
  match thetas with
  | [] => Except.ok []
  | theta :: _ =>
    match c.build_qsp_sequence (theta * 2) with
    | Except.error e => Except.error e
    | Except.ok (_, _circ) => Except.error PyErr.attributeError

/-- C2: the claim that `eval_px`/`eval_qx` are pure functions with no
hidden state fails on the code: `build_qsp_sequence` returns `None`, so
both evaluators raise `AttributeError` on any nonempty theta list, and
each build call appends gates to the shared circuit object (3 gates
after one build of a 2-phase circuit, 6 after two), so evaluation
carries hidden mutable state between calls. -/
theorem eval_px_stateful_crash :
    QSPCircuit.eval_px (QSPCircuit.ofPhis [1, 2]) [1 / 2] = Except.error PyErr.attributeError ∧
    QSPCircuit.eval_qx (QSPCircuit.ofPhis [1, 2]) [1 / 2] = Except.error PyErr.attributeError ∧
    ((QSPCircuit.ofPhis [1, 2]).afterBuild 3).gates.length = 3 ∧
    (((QSPCircuit.ofPhis [1, 2]).afterBuild 3).afterBuild 3).gates.length = 6 :=
  ⟨rfl, rfl, rfl, rfl⟩

/-- 2x2 complex matrix with explicit entries, row-major: `a b / c d`. -/
structure M2 where
  a : ℂ
  b : ℂ
  c : ℂ
  d : ℂ

/-- Matrix product. -/
def M2.mul (m n : M2) : M2 :=
  ⟨m.a * n.a + m.b * n.c, m.a * n.b + m.b * n.d,
   m.c * n.a + m.d * n.c, m.c * n.b + m.d * n.d⟩

/-- Identity matrix. -/
def M2.one : M2 := ⟨1, 0, 0, 1⟩

/-- qulacs `RZ(angle)` gate matrix `exp(i * angle/2 * Z)`, per the
source comment `rz(theta) := exp(i * theta/2 * Z)`. -/
noncomputable def rzMat (angle : ℝ) : M2 :=
  ⟨Complex.exp (((angle / 2 : ℝ) : ℂ) * Complex.I), 0,
   0, Complex.exp (-(((angle / 2 : ℝ) : ℂ) * Complex.I))⟩

/-- qulacs `RX(angle)` gate matrix `exp(i * angle/2 * X)`. -/
noncomputable def rxMat (angle : ℝ) : M2 :=
  ⟨((Real.cos (angle / 2) : ℝ) : ℂ), Complex.I * ((Real.sin (angle / 2) : ℝ) : ℂ),
   Complex.I * ((Real.sin (angle / 2) : ℝ) : ℂ), ((Real.cos (angle / 2) : ℝ) : ℂ)⟩

/-- Matrix of a single gate. -/
noncomputable def gateMatrix : Gate → M2
  | Gate.rz angle => rzMat angle
  | Gate.rx angle => rxMat angle

/-- Unitary realized by a qulacs circuit: `update_quantum_state` applies
the gates in the order they were added, so each later gate multiplies
the accumulated product on the left. -/
noncomputable def circuitMatrix (gs : List Gate) : M2 :=
  gs.foldl (fun U g => (gateMatrix g).mul U) M2.one

/-- Gate sequence built for one theta by `eval_px` / `eval_qx` on a
fresh circuit: both call `build_qsp_sequence(theta * 2)` on the doubled
phase array stored by `__init__`. -/
def evalGates (phis : List ℝ) (theta : ℝ) : List Gate :=
  qspGateList (phis.map (fun p => p * 2)) (theta * 2)

/-- Value semantics of `eval_px` at a single theta, per its docstring:
the amplitude of basis state 0 after applying one QSP gate sequence to
the zero state, i.e. the (0,0) entry of the circuit unitary.  (The
stateful accumulation and the `None`-return slip of the source are
modelled separately by `QSPCircuit.eval_px`.) -/
noncomputable def eval_px_val (phis : List ℝ) (theta : ℝ) : ℂ :=
  (circuitMatrix (evalGates phis theta)).a

/-- Denominator used by `eval_qx`: `denom = np.sin(theta)`, replaced by
the literal `1.0e-8` when it compares equal to zero. -/
noncomputable def qxDenom (theta : ℝ) : ℝ :=
  if Real.sin theta = 0 then 1e-8 else Real.sin theta

/-- Value semantics of `eval_qx` at a single theta: the amplitude of
basis state 0 after applying the gate sequence to basis state 1 — the
(0,1) entry of the circuit unitary — divided by `1j * denom`. -/
noncomputable def eval_qx_val (phis : List ℝ) (theta : ℝ) : ℂ :=
  (circuitMatrix (evalGates phis theta)).b / (Complex.I * ((qxDenom theta : ℝ) : ℂ))

/-- Value semantics of `qsp_response(thetas)`:
`np.real(eval_px(thetas)) + 1j * np.real(eval_qx(thetas)) * np.sin(thetas)`. -/
noncomputable def qsp_response (phis : List ℝ) (thetas : List ℝ) : List ℂ :=
  thetas.map (fun theta =>
    ((eval_px_val phis theta).re : ℂ) +
      Complex.I * ((eval_qx_val phis theta).re : ℂ) * ((Real.sin theta : ℝ) : ℂ))

/-- The denominator of `eval_qx` is never zero. -/
theorem qxDenom_ne_zero (theta : ℝ) : qxDenom theta ≠ 0 := by
  unfold qxDenom
  split
  · norm_num
  · assumption

/-- Doubled phases feed `rzMat` with the halved angle back. -/
theorem rzMat_double (p : ℝ) :
    rzMat (p * 2) =
      ⟨Complex.exp ((p : ℂ) * Complex.I), 0, 0, Complex.exp (-((p : ℂ) * Complex.I))⟩ := by
  unfold rzMat
  rw [show (p * 2) / 2 = p by ring]

/-- Doubled thetas feed `rxMat` with the halved angle back. -/
theorem rxMat_double (t : ℝ) :
    rxMat (t * 2) =
      ⟨((Real.cos t : ℝ) : ℂ), Complex.I * ((Real.sin t : ℝ) : ℂ),
       Complex.I * ((Real.sin t : ℝ) : ℂ), ((Real.cos t : ℝ) : ℂ)⟩ := by
  unfold rxMat
  rw [show (t * 2) / 2 = t by ring]

/-- Circuit unitary of the two-phase sequence `phis = [0, pi/2]` at
`theta = pi/2`; its (0,1) and (1,0) entries differ. -/
theorem circuitMatrix_asym :
    circuitMatrix (evalGates [0, Real.pi / 2] (Real.pi / 2)) = ⟨0, -1, 1, 0⟩ := by
  have hrz0 : rzMat ((0 : ℝ) * 2) = M2.one := by
    rw [rzMat_double]
    simp [M2.one]
  have hrzp : rzMat ((Real.pi / 2) * 2) = ⟨Complex.I, 0, 0, -Complex.I⟩ := by
    rw [rzMat_double]
    rw [Complex.exp_mul_I, ← Complex.exp_mul_I]
    rw [show -(((Real.pi / 2 : ℝ) : ℂ) * Complex.I) = ((-(Real.pi / 2) : ℝ) : ℂ) * Complex.I by
      push_cast; ring]
    rw [Complex.exp_mul_I, Complex.exp_mul_I]
    simp [← Complex.ofReal_cos, ← Complex.ofReal_sin, Real.cos_pi_div_two, Real.sin_pi_div_two]
  have hrxp : rxMat ((Real.pi / 2) * 2) = ⟨0, Complex.I, Complex.I, 0⟩ := by
    rw [rxMat_double]
    simp [Real.cos_pi_div_two, Real.sin_pi_div_two]
  show circuitMatrix
      [Gate.rz ((0 : ℝ) * 2), Gate.rx ((Real.pi / 2) * 2), Gate.rz ((Real.pi / 2) * 2)] =
      ⟨0, -1, 1, 0⟩
  simp only [circuitMatrix, List.foldl, gateMatrix, hrz0, hrzp, hrxp, M2.mul, M2.one]
  norm_num [M2.mk.injEq, Complex.I_mul_I]

/-- C5 counterexample: at `theta = 1e-17` the value `sin(theta)` is
nonzero yet far inside machine precision of zero (below `1e-16 <
2.2e-16`), and `eval_qx` substitutes nothing: the denominator stays
`sin(theta)` and is not the fixed constant `1.0e-8`; substitution
happens only when `sin(theta)` equals zero exactly.  Moreover the entry
divided is the (0,1) entry of the unitary, which differs from the (1,0)
entry, e.g. for `phis = [0, pi/2]` at `theta = pi/2`. -/
theorem qxDenom_counterexample :
    Real.sin 1e-17 ≠ 0 ∧
    |Real.sin 1e-17| < 1e-16 ∧
    qxDenom 1e-17 = Real.sin 1e-17 ∧
    qxDenom 1e-17 ≠ 1e-8 ∧
    (circuitMatrix (evalGates [0, Real.pi / 2] (Real.pi / 2))).b ≠
      (circuitMatrix (evalGates [0, Real.pi / 2] (Real.pi / 2))).c := by
  have hpos : 0 < Real.sin 1e-17 := by
    apply Real.sin_pos_of_pos_of_lt_pi
    · norm_num
    · calc (1e-17 : ℝ) < 3 := by norm_num
        _ < Real.pi := Real.pi_gt_three
  have hlt : Real.sin 1e-17 < 1e-17 := Real.sin_lt (by norm_num)
  have hne : Real.sin 1e-17 ≠ 0 := ne_of_gt hpos
  have hden : qxDenom 1e-17 = Real.sin 1e-17 := by
    unfold qxDenom
    rw [if_neg hne]
  refine ⟨hne, ?_, hden, ?_, ?_⟩
  · rw [abs_of_pos hpos]
    linarith
  · rw [hden]
    intro hcontra
    rw [hcontra] at hlt
    norm_num at hlt
  · rw [circuitMatrix_asym]
    intro hcontra
    simp at hcontra
    have := congrArg Complex.re hcontra
    norm_num at this

/-- C5 amended: the fixed small denominator `1.0e-8` is substituted
exactly when `sin(theta)` equals zero (not merely when it is within
machine precision of zero), the entry divided is the (0,1) entry of the
circuit unitary, and the resulting denominator is never zero, so the
division never fails for any real theta: multiplying `eval_qx` back by
`1j * denom` recovers the (0,1) entry exactly. -/
theorem qxDenom_amended : ∀ (phis : List ℝ) (theta : ℝ),
    qxDenom theta ≠ 0 ∧
    (qxDenom theta = Real.sin theta ∨ (Real.sin theta = 0 ∧ qxDenom theta = 1e-8)) ∧
    eval_qx_val phis theta * (Complex.I * ((qxDenom theta : ℝ) : ℂ)) =
      (circuitMatrix (evalGates phis theta)).b := by
  intro phis theta
  refine ⟨qxDenom_ne_zero theta, ?_, ?_⟩
  · unfold qxDenom
    split
    · exact Or.inr ⟨by assumption, rfl⟩
    · exact Or.inl rfl
  · have hne : Complex.I * ((qxDenom theta : ℝ) : ℂ) ≠ 0 :=
      mul_ne_zero Complex.I_ne_zero
        (Complex.ofReal_ne_zero.mpr (qxDenom_ne_zero theta))
    unfold eval_qx_val
    exact div_mul_cancel₀ _ hne

/-- Tunable (RZ) gate angles of a gate list, in circuit order. -/
def rzAngles (gs : List Gate) : List ℝ :=
  gs.filterMap (fun g => match g with | Gate.rz a => some a | Gate.rx _ => none)

/-- Fixed (RX) gate angles of a gate list, in circuit order. -/
def rxAngles (gs : List Gate) : List ℝ :=
  gs.filterMap (fun g => match g with | Gate.rx a => some a | Gate.rz _ => none)

/-- Strict alternation checker: `altFrom true` expects an RZ gate next,
`altFrom false` an RX gate. -/
def altFrom : Bool → List Gate → Bool
  | _, [] => true
  | true, Gate.rz _ :: rest => altFrom false rest
  | false, Gate.rx _ :: rest => altFrom true rest
  | _, _ => false

/-- Structure of the interleaved tail of a QSP gate sequence. -/
theorem interleave_struct (t : ℝ) (l : List ℝ) :
    rzAngles (interleaveGates t l) = l ∧
    rxAngles (interleaveGates t l) = List.replicate l.length t ∧
    altFrom false (interleaveGates t l) = true ∧
    (interleaveGates t l).length = 2 * l.length := by
  induction l with
  | nil => simp [interleaveGates, rzAngles, rxAngles, altFrom]
  | cons q qs ih =>
    obtain ⟨h1, h2, h3, h4⟩ := ih
    unfold rzAngles rxAngles at *
    refine ⟨?_, ?_, ?_, ?_⟩
    · simp [interleaveGates, List.filterMap_cons, h1]
    · simp [interleaveGates, List.filterMap_cons, h2, List.replicate]
    · simpa [interleaveGates, altFrom] using h3
    · simp [interleaveGates, h4]
      omega

/-- C6: for a phase list of length `d + 1`, the gate sequence built by
`build_qsp_sequence` as invoked from the evaluators applies exactly
`d + 1` tunable RZ rotations with gate angles `2 * phase_k` in order
`k = 0..d`, alternating with exactly `d` fixed RX rotations, all with
gate angle `2 * theta`, in fixed left-to-right order starting with the
phase-0 RZ rotation. -/
theorem qsp_layer_alternation (phis : List ℝ) (theta : ℝ) (d : ℕ)
    (h : phis.length = d + 1) :
    rzAngles (evalGates phis theta) = phis.map (fun p => p * 2) ∧
    rxAngles (evalGates phis theta) = List.replicate d (theta * 2) ∧
    altFrom true (evalGates phis theta) = true ∧
    (evalGates phis theta).length = 2 * d + 1 ∧
    (evalGates phis theta).head? = phis.head?.map (fun p => Gate.rz (p * 2)) := by
  cases phis with
  | nil => simp at h
  | cons p ps =>
    have hd : ps.length = d := by simpa using h
    subst hd
    obtain ⟨h1, h2, h3, h4⟩ := interleave_struct (theta * 2) (ps.map (fun p => p * 2))
    have hgl : evalGates (p :: ps) theta =
        Gate.rz (p * 2) :: interleaveGates (theta * 2) (ps.map (fun p => p * 2)) := rfl
    rw [hgl]
    refine ⟨?_, ?_, ?_, ?_, ?_⟩
    · unfold rzAngles at h1 ⊢
      simp [List.filterMap_cons, h1]
    · unfold rxAngles at h2 ⊢
      simp only [List.filterMap_cons]
      simpa using h2
    · exact h3
    · simp only [List.length_cons, h4, List.length_map]
    · rfl

/-- C6 witness: the layer structure at the concrete phase list
`[1, 2, 3]` (`d = 2`) and `theta = 5`. -/
theorem qsp_layer_alternation_witness :
    rzAngles (evalGates [1, 2, 3] 5) = [1, 2, 3].map (fun p => p * 2) ∧
    rxAngles (evalGates [1, 2, 3] 5) = List.replicate 2 (5 * 2) ∧
    altFrom true (evalGates [1, 2, 3] 5) = true ∧
    (evalGates [1, 2, 3] 5).length = 2 * 2 + 1 ∧
    (evalGates [1, 2, 3] 5).head? = [1, 2, 3].head?.map (fun p => Gate.rz (p * 2)) :=
  qsp_layer_alternation [1, 2, 3] 5 2 (by simp)

/-- Circuit unitary of the trivial two-phase sequence `[0, 0]` at
`theta = -pi/2`. -/
theorem circuitMatrix_neghalfpi :
    circuitMatrix (evalGates [0, 0] (-(Real.pi / 2))) = ⟨0, -Complex.I, -Complex.I, 0⟩ := by
  have hrz0 : rzMat ((0 : ℝ) * 2) = M2.one := by
    rw [rzMat_double]
    simp [M2.one]
  have hrx : rxMat ((-(Real.pi / 2)) * 2) = ⟨0, -Complex.I, -Complex.I, 0⟩ := by
    rw [rxMat_double]
    simp [Real.cos_pi_div_two, Real.sin_pi_div_two]
  show circuitMatrix
      [Gate.rz ((0 : ℝ) * 2), Gate.rx ((-(Real.pi / 2)) * 2), Gate.rz ((0 : ℝ) * 2)] =
      ⟨0, -Complex.I, -Complex.I, 0⟩
  simp only [circuitMatrix, List.foldl, gateMatrix, hrz0, hrx, M2.mul, M2.one]
  norm_num

/-- `eval_px` value of `[0, 0]` at `theta = -pi/2`. -/
theorem eval_px_val_neghalfpi : eval_px_val [0, 0] (-(Real.pi / 2)) = 0 := by
  unfold eval_px_val
  rw [circuitMatrix_neghalfpi]

/-- `eval_qx` value of `[0, 0]` at `theta = -pi/2`. -/
theorem eval_qx_val_neghalfpi : eval_qx_val [0, 0] (-(Real.pi / 2)) = 1 := by
  unfold eval_qx_val
  rw [circuitMatrix_neghalfpi]
  have hsin : Real.sin (-(Real.pi / 2)) = -1 := by
    simp [Real.sin_pi_div_two]
  have hden : qxDenom (-(Real.pi / 2)) = -1 := by
    unfold qxDenom
    rw [hsin]
    norm_num
  rw [hden]
  show -Complex.I / (Complex.I * (((-1 : ℝ) : ℂ))) = 1
  push_cast
  rw [mul_neg_one]
  exact div_self (neg_ne_zero.mpr Complex.I_ne_zero)

/-- C9: `qsp_response` combines the real parts of `eval_px` and
`eval_qx` elementwise with the signed factor `sin(theta)` of each input
theta (`np.sin(thetas)` in the source), not the nonnegative
`sqrt(1 - x^2)`: at `phis = [0, 0]`, `theta = -pi/2` the response is
`-i` while the `sqrt`-variant would be `+i`. -/
theorem qsp_response_signed_sin :
    (∀ (phis thetas : List ℝ), qsp_response phis thetas =
      thetas.map (fun theta =>
        ((eval_px_val phis theta).re : ℂ) +
          Complex.I * ((eval_qx_val phis theta).re : ℂ) * ((Real.sin theta : ℝ) : ℂ))) ∧
    qsp_response [0, 0] [-(Real.pi / 2)] = [-Complex.I] ∧
    ((eval_px_val [0, 0] (-(Real.pi / 2))).re : ℂ) +
        Complex.I * ((eval_qx_val [0, 0] (-(Real.pi / 2))).re : ℂ) *
          ((Real.sqrt (1 - Real.cos (-(Real.pi / 2)) ^ 2) : ℝ) : ℂ) = Complex.I ∧
    (-Complex.I : ℂ) ≠ Complex.I := by
  have hsin : Real.sin (-(Real.pi / 2)) = -1 := by
    simp [Real.sin_pi_div_two]
  have hcos : Real.cos (-(Real.pi / 2)) = 0 := by
    simp [Real.cos_pi_div_two]
  refine ⟨fun phis thetas => rfl, ?_, ?_, ?_⟩
  · unfold qsp_response
    rw [List.map_singleton, eval_px_val_neghalfpi, eval_qx_val_neghalfpi, hsin]
    norm_num
  · rw [eval_px_val_neghalfpi, eval_qx_val_neghalfpi, hcos]
    norm_num
  · intro hcontra
    have := congrArg Complex.im hcontra
    norm_num at this

/-- Horner evaluation of a coefficient list (constant term first), the
`const, a, a^2, ...` convention of the `--poly` option. -/
def polyEval : List ℝ → ℝ → ℝ
  | [], _ => 0
  | c :: cs, x => c + x * polyEval cs x

/-- Modelled from the spec: a coefficient vector is parity-definite when
all coefficients of the non-matching parity are exactly zero (either
every even-indexed or every odd-indexed coefficient vanishes). -/
def parityDefinite (coeffs : List ℝ) : Prop :=
  (∀ i, i < coeffs.length → i % 2 = 0 → coeffs.getD i 0 = 0) ∨
  (∀ i, i < coeffs.length → i % 2 = 1 → coeffs.getD i 0 = 0)

/-- Modelled from the spec: the sup-norm validation of the solver,
sampled on the working grid — every sampled value of the polynomial has
magnitude at most 1. -/
def boundedOnGrid (coeffs : List ℝ) (grid : List ℝ) : Prop :=
  ∀ x ∈ grid, |polyEval coeffs x| ≤ 1

/-- Degree of a coefficient vector, one less than its length. -/
def polyDegree (coeffs : List ℝ) : ℕ := coeffs.length - 1

/-- Modelled from the spec: the working pair `(P_k, Q_k)` of the layer
peeling loop of the absent `angle_sequence` module. -/
structure PeelState where
  P : List ℝ
  Q : List ℝ

/-- Modelled from the spec: the layer-peeling loop of the absent
`angle_sequence` module.  One peeling step (deriving an angle from the
leading coefficients and removing one rotation layer) is the supplied
`step`; the loop runs from degree `d` down to degree 0, yielding `d + 1`
angles. -/
def peel (step : PeelState → ℝ × PeelState) : ℕ → PeelState → List ℝ
  | 0, s => [(step s).1]
  | Nat.succ k, s => (step s).1 :: peel step k (step s).2

/-- Modelled from the spec: the numerically determined ingredients of the
absent `angle_sequence` module — root-selection completion building the
complementary polynomial, the arctangent peeling step, the local
refinement perturbation, and the refinement iteration budget. -/
structure SolverOracle where
  complete : List ℝ → List ℝ
  step : PeelState → ℝ × PeelState
  delta : List ℝ → ℕ → ℝ
  budget : ℕ

/-- In-place perturbation of the angles from index `i` on. -/
def perturbFrom (g : ℕ → ℝ) : ℕ → List ℝ → List ℝ
  | _, [] => []
  | i, a :: as => (a + g i) :: perturbFrom g (i + 1) as

/-- Modelled from the spec: one local-minimization update of the
refinement stage, perturbing each of the `d + 1` angles in place. -/
def refineStep (delta : List ℝ → ℕ → ℝ) (phi : List ℝ) : List ℝ :=
  perturbFrom (delta phi) 0 phi

/-- Modelled from the spec: the signal rotation `W(x)` of the evaluator
for the Wx signal operator, `x = cos(theta)` and
`sqrt(1 - x^2) = sin(theta)` for `theta` in `[0, pi]`. -/
noncomputable def wMat (x : ℝ) : M2 :=
  ⟨(x : ℂ), Complex.I * ((Real.sqrt (1 - x ^ 2) : ℝ) : ℂ),
   Complex.I * ((Real.sqrt (1 - x ^ 2) : ℝ) : ℂ), (x : ℂ)⟩

/-- Modelled from the spec: the tunable rotation `exp(i * phi * Z)`
about the axis complementary to the Wx signal operator. -/
noncomputable def sMat (phi : ℝ) : M2 :=
  ⟨Complex.exp ((phi : ℂ) * Complex.I), 0, 0, Complex.exp (-((phi : ℂ) * Complex.I))⟩

/-- Modelled from the spec: the response evaluator's layer product — the
`d + 1` tunable layers alternating with the fixed signal rotation,
multiplied in fixed left-to-right order. -/
noncomputable def qspUnitary (phases : List ℝ) (x : ℝ) : M2 :=
  match phases with
  | [] => M2.one
  | phi0 :: rest => rest.foldl (fun U phi => U.mul ((wMat x).mul (sMat phi))) (sMat phi0)

/-- Modelled from the spec: the realized response `P(x)`, the real part
of the (0,0) entry of the layer product. -/
noncomputable def qspPx (phases : List ℝ) (x : ℝ) : ℝ := (qspUnitary phases x).a.re

/-- Modelled from the spec: the maximum deviation between the realized
response and the target polynomial over the sampling grid. -/
noncomputable def maxErr (phases coeffs : List ℝ) (grid : List ℝ) : ℝ :=
  grid.foldr (fun x m => max |qspPx phases x - polyEval coeffs x| m) 0

/-- Modelled from the spec: the bounded refinement loop — stop as soon
as the measured deviation is within tolerance, otherwise perturb and
retry until the iteration budget is exhausted. -/
noncomputable def refineLoop (O : SolverOracle) (coeffs : List ℝ) (tol : ℝ)
    (grid : List ℝ) : ℕ → List ℝ → List ℝ
  | 0, phi => phi
  | Nat.succ n, phi =>
    if maxErr phi coeffs grid ≤ tol then phi
    else refineLoop O coeffs tol grid n (refineStep O.delta phi)

/-- Modelled from the spec: completion plus peeling plus refinement —
the candidate phase sequence the solver measures against the target. -/
noncomputable def candidatePhases (O : SolverOracle) (coeffs : List ℝ) (tol : ℝ)
    (grid : List ℝ) : List ℝ :=
  refineLoop O coeffs tol grid O.budget
    (peel O.step (polyDegree coeffs) ⟨coeffs, O.complete coeffs⟩)

/-- Solver failure taxonomy of the spec. -/
inductive SolverError
  | infeasiblePolynomial
  | toleranceNotMet
  | numericalInstability

open Classical in
/-- Modelled from the spec: `PhaseAngleSolver.solve` of the absent
`angle_sequence` module.  Validation rejects non-parity-definite or
unbounded input with `InfeasiblePolynomial`; a success return is issued
only when the measured deviation of the candidate phases on the
sampling grid is within the requested tolerance, otherwise the solver
fails with `ToleranceNotMet`. -/
noncomputable def solve (O : SolverOracle) (coeffs : List ℝ) (tol : ℝ)
    (grid : List ℝ) : Except SolverError (List ℝ) :=
  if parityDefinite coeffs ∧ boundedOnGrid coeffs grid then
    if maxErr (candidatePhases O coeffs tol grid) coeffs grid ≤ tol then
      Except.ok (candidatePhases O coeffs tol grid)
    else Except.error SolverError.toleranceNotMet
  else Except.error SolverError.infeasiblePolynomial

/-- Peeling from degree `d` yields `d + 1` angles. -/
theorem peel_length (step : PeelState → ℝ × PeelState) :
    ∀ (d : ℕ) (s : PeelState), (peel step d s).length = d + 1 := by
  intro d
  induction d with
  | zero => intro s; rfl
  | succ k ih => intro s; simp [peel, ih]

/-- Perturbation preserves the number of angles. -/
theorem perturbFrom_length (g : ℕ → ℝ) :
    ∀ (l : List ℝ) (i : ℕ), (perturbFrom g i l).length = l.length := by
  intro l
  induction l with
  | nil => intro i; rfl
  | cons a as ih => intro i; simp [perturbFrom, ih]

/-- The refinement loop preserves the number of angles. -/
theorem refineLoop_length (O : SolverOracle) (coeffs : List ℝ) (tol : ℝ)
    (grid : List ℝ) :
    ∀ (n : ℕ) (phi : List ℝ), (refineLoop O coeffs tol grid n phi).length = phi.length := by
  intro n
  induction n with
  | zero => intro phi; rfl
  | succ k ih =>
    intro phi
    unfold refineLoop
    split
    · rfl
    · rw [ih, refineStep, perturbFrom_length]

/-- The candidate phase list always has `degree + 1` entries. -/
theorem candidatePhases_length (O : SolverOracle) (coeffs : List ℝ) (tol : ℝ)
    (grid : List ℝ) :
    (candidatePhases O coeffs tol grid).length = polyDegree coeffs + 1 := by
  unfold candidatePhases
  rw [refineLoop_length, peel_length]

/-- A successful solve returns the measured candidate phases, with
measured deviation within tolerance. -/
theorem solve_ok (O : SolverOracle) (coeffs : List ℝ) (tol : ℝ) (grid : List ℝ)
    (phi : List ℝ) (h : solve O coeffs tol grid = Except.ok phi) :
    phi = candidatePhases O coeffs tol grid ∧ maxErr phi coeffs grid ≤ tol := by
  unfold solve at h
  split at h
  · split at h
    · rename_i hle
      cases h
      exact ⟨rfl, hle⟩
    · cases h
  · cases h

/-- Every sampled deviation is at most the measured maximum. -/
theorem le_maxErr (phases coeffs : List ℝ) :
    ∀ (grid : List ℝ) (x : ℝ), x ∈ grid →
      |qspPx phases x - polyEval coeffs x| ≤ maxErr phases coeffs grid := by
  intro grid
  induction grid with
  | nil => intro x hx; cases hx
  | cons y ys ih =>
    intro x hx
    rcases List.mem_cons.mp hx with hxy | hmem
    · subst hxy
      exact le_max_left _ _
    · exact le_trans (ih x hmem) (le_max_right _ _)

/-- C1 (spec-modelled): for a parity-definite polynomial passing the
boundedness validation, every phase sequence returned successfully by
`solve` reproduces the target polynomial within the requested tolerance
at every sampled `x`; a success return never hides an accuracy
shortfall larger than the tolerance. -/
theorem solve_round_trip (O : SolverOracle) (coeffs : List ℝ) (tol : ℝ)
    (grid : List ℝ) (phi : List ℝ)
    (hpar : parityDefinite coeffs) (hsup : boundedOnGrid coeffs grid)
    (hok : solve O coeffs tol grid = Except.ok phi) :
    ∀ x ∈ grid, |qspPx phi x - polyEval coeffs x| ≤ tol := by
  intro x hx
  obtain ⟨-, herr⟩ := solve_ok O coeffs tol grid phi hok
  exact le_trans (le_maxErr phi coeffs grid x hx) herr

/-- C4 (spec-modelled): every phase sequence produced by `solve` has
length exactly `degree + 1`. -/
theorem solve_degree_invariant (O : SolverOracle) (coeffs : List ℝ) (tol : ℝ)
    (grid : List ℝ) (phi : List ℝ)
    (hok : solve O coeffs tol grid = Except.ok phi) :
    phi.length = polyDegree coeffs + 1 := by
  obtain ⟨hphi, -⟩ := solve_ok O coeffs tol grid phi hok
  rw [hphi, candidatePhases_length]

/-- C3 (spec-modelled): on the coefficient vector `[-1, 0, 2]`, i.e.
`P(x) = -1 + 2 x^2`, a successful solve over the grid containing
`x = 0` and `x = 1` returns exactly 3 phases whose evaluation is within
tolerance of `P(0) = -1` at `x = 0` and of `P(1) = 1` at `x = 1`. -/
theorem solve_quadratic_scenario (O : SolverOracle) (tol : ℝ) (phi : List ℝ)
    (hok : solve O [-1, 0, 2] tol [0, 1] = Except.ok phi) :
    phi.length = 3 ∧ |qspPx phi 0 - (-1)| ≤ tol ∧ |qspPx phi 1 - 1| ≤ tol := by
  obtain ⟨hphi, herr⟩ := solve_ok O [-1, 0, 2] tol [0, 1] phi hok
  refine ⟨?_, ?_, ?_⟩
  · rw [hphi, candidatePhases_length]
    rfl
  · have h0 := le_trans (le_maxErr phi [-1, 0, 2] [0, 1] 0 (by simp)) herr
    have : polyEval [-1, 0, 2] 0 = -1 := by norm_num [polyEval]
    rwa [this] at h0
  · have h1 := le_trans (le_maxErr phi [-1, 0, 2] [0, 1] 1 (by simp)) herr
    have : polyEval [-1, 0, 2] 1 = 1 := by norm_num [polyEval]
    rwa [this] at h1

/-- A concrete instantiation of the numerical oracle: completion returns
the empty complementary polynomial, every peeling step emits the angle
0, refinement is disabled (budget 0). -/
def oracle0 : SolverOracle :=
  { complete := fun _ => [], step := fun s => (0, s), delta := fun _ _ => 0, budget := 0 }

/-- The quadratic test vector is parity-definite (even). -/
theorem parity_quad : parityDefinite [-1, 0, 2] := by
  right
  intro i hi hodd
  have hi3 : i < 3 := by simpa using hi
  have h1 : i = 1 := by omega
  subst h1
  rfl

/-- The quadratic test vector is bounded on the grid `[0, 1]`. -/
theorem bounded_quad : boundedOnGrid [-1, 0, 2] [0, 1] := by
  intro x hx
  rcases List.mem_cons.mp hx with rfl | hx1
  · norm_num [polyEval]
  · rcases List.mem_cons.mp hx1 with rfl | h0
    · norm_num [polyEval]
    · cases h0

/-- The tunable layer at angle 0 is the identity. -/
theorem sMat_zero : sMat 0 = M2.one := by
  unfold sMat M2.one
  norm_num

/-- The signal layer at `x = 0`. -/
theorem wMat_zero : wMat 0 = ⟨0, Complex.I, Complex.I, 0⟩ := by
  unfold wMat
  norm_num

/-- The signal layer at `x = 1` is the identity. -/
theorem wMat_one : wMat 1 = M2.one := by
  unfold wMat M2.one
  norm_num

/-- Layer product of the all-zero 3-phase sequence at `x = 0`. -/
theorem qspUnitary_zeros_at_zero : qspUnitary [0, 0, 0] 0 = ⟨-1, 0, 0, -1⟩ := by
  show List.foldl (fun U phi => U.mul ((wMat 0).mul (sMat phi))) (sMat 0) [0, 0] =
    ⟨-1, 0, 0, -1⟩
  simp only [List.foldl, sMat_zero, wMat_zero, M2.mul, M2.one]
  simp [M2.mk.injEq, Complex.I_mul_I]

/-- Layer product of the all-zero 3-phase sequence at `x = 1`. -/
theorem qspUnitary_zeros_at_one : qspUnitary [0, 0, 0] 1 = M2.one := by
  show List.foldl (fun U phi => U.mul ((wMat 1).mul (sMat phi))) (sMat 0) [0, 0] =
    M2.one
  simp only [List.foldl, sMat_zero, wMat_one, M2.mul, M2.one]
  simp [M2.mk.injEq]

/-- Realized response of the all-zero 3-phase sequence at `x = 0`. -/
theorem qspPx_zeros_at_zero : qspPx [0, 0, 0] 0 = -1 := by
  unfold qspPx
  rw [qspUnitary_zeros_at_zero]
  simp

/-- Realized response of the all-zero 3-phase sequence at `x = 1`. -/
theorem qspPx_zeros_at_one : qspPx [0, 0, 0] 1 = 1 := by
  unfold qspPx
  rw [qspUnitary_zeros_at_one]
  simp [M2.one]

/-- The all-zero 3-phase sequence matches the quadratic exactly on the
grid `[0, 1]`. -/
theorem maxErr_oracle_quad : maxErr [0, 0, 0] [-1, 0, 2] [0, 1] ≤ 1 := by
  unfold maxErr
  simp only [List.foldr]
  rw [qspPx_zeros_at_zero, qspPx_zeros_at_one]
  norm_num [polyEval]

/-- The zero-step oracle peels the quadratic into the all-zero 3-phase
sequence. -/
theorem candidate_oracle0 : candidatePhases oracle0 [-1, 0, 2] 1 [0, 1] = [0, 0, 0] := rfl

/-- The modelled solver succeeds on the quadratic test vector with the
zero-step oracle, returning the all-zero 3-phase sequence. -/
theorem solve_oracle0 : solve oracle0 [-1, 0, 2] 1 [0, 1] = Except.ok [0, 0, 0] := by
  unfold solve
  rw [if_pos (And.intro parity_quad bounded_quad), candidate_oracle0,
    if_pos maxErr_oracle_quad]

/-- C1 witness: a concrete successful solve (quadratic `[-1, 0, 2]`,
tolerance 1, grid `[0, 1]`) whose returned phases reproduce the target
within tolerance at every grid point. -/
theorem solve_round_trip_witness :
    |qspPx [0, 0, 0] 0 - polyEval [-1, 0, 2] 0| ≤ 1 ∧
    |qspPx [0, 0, 0] 1 - polyEval [-1, 0, 2] 1| ≤ 1 :=
  ⟨solve_round_trip oracle0 [-1, 0, 2] 1 [0, 1] [0, 0, 0] parity_quad bounded_quad
      solve_oracle0 0 (by simp),
   solve_round_trip oracle0 [-1, 0, 2] 1 [0, 1] [0, 0, 0] parity_quad bounded_quad
      solve_oracle0 1 (by simp)⟩

/-- C4 witness: the concrete successful solve returns `degree + 1 = 3`
phases. -/
theorem solve_degree_invariant_witness :
    ([0, 0, 0] : List ℝ).length = polyDegree [-1, 0, 2] + 1 :=
  solve_degree_invariant oracle0 [-1, 0, 2] 1 [0, 1] [0, 0, 0] solve_oracle0

/-- C3 witness: the concrete successful solve on `[-1, 0, 2]` returns 3
phases that evaluate within tolerance of -1 at `x = 0` and of 1 at
`x = 1`. -/
theorem solve_quadratic_scenario_witness :
    ([0, 0, 0] : List ℝ).length = 3 ∧
    |qspPx [0, 0, 0] 0 - (-1)| ≤ 1 ∧ |qspPx [0, 0, 0] 1 - 1| ≤ 1 :=
  solve_quadratic_scenario oracle0 1 [0, 0, 0] solve_oracle0

/-- Errors of the polynomial generators per the spec taxonomy. -/
inductive GenError
  | invalidParameter
  | toleranceNotMet

/-- Modelled from the spec: coefficients of the truncated odd series of
the requested degree used by the reciprocal approximations of the
absent `pyqsp.poly` module; odd parity is enforced by construction (the
precise series law is not fixed by the spec). -/
noncomputable def recipCoeffs (d : ℕ) (kappa : ℝ) : List ℝ :=
  (List.range (d + 1)).map (fun j => if j % 2 = 1 then (1 / kappa) ^ j else 0)

/-- Modelled from the spec: the normalizing scale factor carried
alongside the coefficients, standing in for the absent module's sampled
maximum-magnitude reciprocal. -/
noncomputable def recipScale (kappa : ℝ) : ℝ := 1 / kappa

/-- Modelled from the spec: a reciprocal polynomial approximation
(`PolyOneOverX` / windowed reciprocal `PolyOneOverXRect`, both in the
absent `pyqsp.poly` module) requires `kappa > 1` and a requested degree
of at least 1; out-of-domain arguments fail with `InvalidParameter`,
otherwise the truncated series and its scale are returned. -/
noncomputable def reciprocalGenerate (degree : ℤ) (kappa epsilon : ℝ) :
    Except GenError (List ℝ × ℝ) :=
  if kappa ≤ 1 ∨ degree < 1 then Except.error GenError.invalidParameter
  else Except.ok (recipCoeffs degree.toNat kappa, recipScale kappa)

/-- C7 (spec-modelled): every call to a reciprocal polynomial
approximation with `kappa <= 1` or `degree < 1` fails with
`InvalidParameter` rather than returning coefficients. -/
theorem recip_invalid_param (degree : ℤ) (kappa epsilon : ℝ)
    (h : kappa ≤ 1 ∨ degree < 1) :
    reciprocalGenerate degree kappa epsilon = Except.error GenError.invalidParameter := by
  unfold reciprocalGenerate
  rw [if_pos h]

/-- C7 witness: `kappa = 1` (with degree 5, epsilon 0.3) triggers
`InvalidParameter`. -/
theorem recip_invalid_param_witness :
    reciprocalGenerate 5 1 (3 / 10) = Except.error GenError.invalidParameter :=
  recip_invalid_param 5 1 (3 / 10) (Or.inl le_rfl)

/-- Console messages printed by `CommandLine`, modelled as tags instead
of formatted text. -/
inductive Message
  | knownPolyGens (names : List String)
  | knownPhaseGens (names : List String)
  | helpFor (name : String)
  | polyCoefs (coefs : List ℝ)
  | phisetMsg (phiset : List ℝ)
  | unknownCommand (cmd : String)

/-- A Python exception escaping `CommandLine` (e.g. propagated from the
phase-angle solver). -/
inductive PyExc
  | raised

/-- Result of a `CommandLine` run that did not raise: what was printed
and the Python return value (`None` or the phase set). -/
structure CLIOutcome where
  printed : List Message
  retval : Option (List ℝ)

/-- The name-to-generator registries (`polynomial_generators`,
`phase_generators`) and the solver, all imported by `main.py` from
modules absent from the provided sources; kept abstract. -/
structure Registry where
  polyGens : List (String × (List ℝ → List ℝ))
  phaseGens : List (String × (List ℝ → List ℝ))
  solveAngles : List ℝ → ℝ → Except SolverError (List ℝ)

/-- The parsed arguments of `CommandLine` relevant to the `poly` and
`angles` commands. -/
structure CLIArgs where
  cmd : String
  polyname : Option String
  polyargs : Option (List ℝ)
  seqname : Option String
  seqargs : Option (List ℝ)
  tolerance : ℝ
  return_angles : Bool

/-- The `cmd == "poly"` branch of `CommandLine`: on a falsy (`None` or
empty) or unregistered `--polyname` it prints the known generators and
returns `None`; on missing `--polyargs` it prints the generator's help;
otherwise it generates coefficients, prints them and solves for phases
(Python truthiness makes an empty string or empty list count as
missing). -/
def polyBranch (R : Registry) (a : CLIArgs) : Except PyExc CLIOutcome :=
  match a.polyname with
  | none => Except.ok ⟨[Message.knownPolyGens (R.polyGens.map Prod.fst)], none⟩
  | some s =>
    if s.isEmpty then Except.ok ⟨[Message.knownPolyGens (R.polyGens.map Prod.fst)], none⟩
    else
      match R.polyGens.lookup s with
      | none => Except.ok ⟨[Message.knownPolyGens (R.polyGens.map Prod.fst)], none⟩
      | some gen =>
        match a.polyargs with
        | none => Except.ok ⟨[Message.helpFor s], none⟩
        | some pargs =>
          if pargs.isEmpty then Except.ok ⟨[Message.helpFor s], none⟩
          else
            match R.solveAngles (gen pargs) a.tolerance with
            | Except.error _ => Except.error PyExc.raised
            | Except.ok phi =>
              Except.ok ⟨[Message.polyCoefs (gen pargs)],
                if a.return_angles then some phi else none⟩

/-- The `cmd == "angles"` branch of `CommandLine`: like `polyBranch`
but the named phase generator produces the phase set directly. -/
def anglesBranch (R : Registry) (a : CLIArgs) : Except PyExc CLIOutcome :=
  match a.seqname with
  | none => Except.ok ⟨[Message.knownPhaseGens (R.phaseGens.map Prod.fst)], none⟩
  | some s =>
    if s.isEmpty then Except.ok ⟨[Message.knownPhaseGens (R.phaseGens.map Prod.fst)], none⟩
    else
      match R.phaseGens.lookup s with
      | none => Except.ok ⟨[Message.knownPhaseGens (R.phaseGens.map Prod.fst)], none⟩
      | some gen =>
        match a.seqargs with
        | none => Except.ok ⟨[Message.helpFor s], none⟩
        | some sargs =>
          if sargs.isEmpty then Except.ok ⟨[Message.helpFor s], none⟩
          else
            Except.ok ⟨[Message.phisetMsg (gen sargs)],
              if a.return_angles then some (gen sargs) else none⟩

/-- The command dispatch of `CommandLine` for the two claim-relevant
commands; the remaining commands depend on modules absent from the
provided sources and are collapsed into the final fallthrough. -/
def commandLineDispatch (R : Registry) (a : CLIArgs) : Except PyExc CLIOutcome :=
  if a.cmd = "poly" then polyBranch R a
  else if a.cmd = "angles" then anglesBranch R a
  else Except.ok ⟨[Message.unknownCommand a.cmd], none⟩

/-- A generator name that Python treats as missing (`None` or empty
string) or that is not a key of the registry. -/
def missingOrUnknown (n : Option String)
    (gens : List (String × (List ℝ → List ℝ))) : Prop :=
  n = none ∨ ∃ s, n = some s ∧ (s.isEmpty = true ∨ gens.lookup s = none)

/-- The `poly` branch early-returns on a missing or unknown name. -/
theorem polyBranch_unknown (R : Registry) (a : CLIArgs)
    (hm : missingOrUnknown a.polyname R.polyGens) :
    polyBranch R a = Except.ok ⟨[Message.knownPolyGens (R.polyGens.map Prod.fst)], none⟩ := by
  unfold polyBranch
  rcases hm with hnone | ⟨s, hs, hrest⟩
  · rw [hnone]
  · rw [hs]
    rcases hrest with hempty | hlookup
    · simp [hempty]
    · cases hemp : s.isEmpty with
      | true => simp [hemp]
      | false => simp [hemp, hlookup]

/-- The `angles` branch early-returns on a missing or unknown name. -/
theorem anglesBranch_unknown (R : Registry) (a : CLIArgs)
    (hm : missingOrUnknown a.seqname R.phaseGens) :
    anglesBranch R a = Except.ok ⟨[Message.knownPhaseGens (R.phaseGens.map Prod.fst)], none⟩ := by
  unfold anglesBranch
  rcases hm with hnone | ⟨s, hs, hrest⟩
  · rw [hnone]
  · rw [hs]
    rcases hrest with hempty | hlookup
    · simp [hempty]
    · cases hemp : s.isEmpty with
      | true => simp [hemp]
      | false => simp [hemp, hlookup]

/-- C10: invoking `CommandLine` with `cmd = "poly"` and a missing or
unregistered polyname, or with `cmd = "angles"` and a missing or
unregistered seqname, returns `None` after printing the list of known
generators, raising no exception and producing no phase sequence. -/
theorem cli_unknown_generator (R : Registry) (a : CLIArgs)
    (h : (a.cmd = "poly" ∧ missingOrUnknown a.polyname R.polyGens) ∨
         (a.cmd = "angles" ∧ missingOrUnknown a.seqname R.phaseGens)) :
    commandLineDispatch R a =
      Except.ok ⟨[if a.cmd = "poly"
                  then Message.knownPolyGens (R.polyGens.map Prod.fst)
                  else Message.knownPhaseGens (R.phaseGens.map Prod.fst)], none⟩ := by
  unfold commandLineDispatch
  rcases h with ⟨hc, hm⟩ | ⟨hc, hm⟩
  · rw [hc, if_pos rfl, if_pos rfl]
    exact polyBranch_unknown R a hm
  · rw [hc, if_neg (by decide), if_pos rfl, if_neg (by decide)]
    exact anglesBranch_unknown R a hm

/-- A concrete registry with one polynomial generator and one phase
generator. -/
def registry0 : Registry :=
  { polyGens := [(("poly_sign"), fun _ => ([] : List ℝ))],
    phaseGens := [(("fpsearch"), fun _ => ([] : List ℝ))],
    solveAngles := fun _ _ => Except.ok ([] : List ℝ) }

/-- Concrete arguments: `cmd = "poly"` with a polyname not registered in
`registry0`. -/
def args0 : CLIArgs :=
  { cmd := "poly", polyname := some ("zzz"), polyargs := none,
    seqname := none, seqargs := none, tolerance := 1, return_angles := true }

/-- C10 witness: the concrete unknown-polyname invocation prints the
known generators and returns `None` without raising. -/
theorem cli_unknown_generator_witness :
    commandLineDispatch registry0 args0 =
      Except.ok ⟨[if args0.cmd = "poly"
                  then Message.knownPolyGens (registry0.polyGens.map Prod.fst)
                  else Message.knownPhaseGens (registry0.phaseGens.map Prod.fst)], none⟩ :=
  cli_unknown_generator registry0 args0
    (Or.inl ⟨rfl, Or.inr ⟨("zzz"), rfl, Or.inr rfl⟩⟩)

end PyQSP
